import Mathlib

/-!
Verification of `kyaml/kio/pkgio_reader.go`: the package-aware directory
traversal (`LocalPackageReader`) and the round-trip read/write coordinator
(`LocalPackageReadWriter`) with its file-deletion tracking.

The Go source is shallowly embedded below.  Pure helpers become Lean
functions; the stateful pieces (the ignore matcher's accumulated rule scopes,
the reader's `SetAnnotations` map, the growing output slice) become explicit
state threaded through the traversal.  External collaborators that are not
part of the source file (the ignore-pattern engine, the document codec /
`ByteReader`, `kioutil.GetFileAnnotations`, `LocalPackageWriter`, `os.Remove`)
are modelled at their interface boundary, following the specification's §6.
-/

namespace Kio

/-- A Go `map[string]string` of annotations, modelled as an association list.
`set` removes every existing binding of the key and appends the new one, so a
map built by `set` has at most one binding per key, like a Go map. -/
abbrev AnnMap := List (String × String)

/-- Go map assignment `m[k] = v`. -/
def AnnMap.set (m : AnnMap) (k v : String) : AnnMap :=
  m.filter (fun kv => !(kv.1 == k)) ++ [(k, v)]

/-- Go map lookup `m[k]` (with presence flag). -/
def AnnMap.get (m : AnnMap) (k : String) : Option String :=
  (m.find? (fun kv => kv.1 == k)).map (·.2)

/-- Go `for k := range m`: the keys of the map. -/
def AnnMap.keys (m : AnnMap) : List String :=
  m.map (·.1)

/-- A `yaml.RNode` as far as this file is concerned: an opaque document
carrying a string-keyed annotation mapping. -/
structure RNode where
  anns : AnnMap
deriving DecidableEq, Repr

/-- Lookup of an annotation on a document. -/
def RNode.get (d : RNode) (k : String) : Option String :=
  d.anns.get k

/-- `kioutil.PathAnnotation`: the file path stamped on each document. -/
def PathAnnotationKey : String := "config.kubernetes.io/path"

/-- `kioutil.IndexAnnotation`: position of the document within its file. -/
def IndexAnnotationKey : String := "config.kubernetes.io/index"

/-- The ignore-pattern engine (`IgnoreFilesMatcher`), an external collaborator
modelled at its interface boundary (spec §6): given the list of directories
whose ignore files have been loaded so far (most recent first), it answers
whether a file or directory path is excluded; `readErr` is the possible
failure of loading a directory's ignore file. -/
structure IgnoreOracle where
  fileMatch : List String → String → Bool
  dirMatch : List String → String → Bool
  readErr : String → Option String

/-- A local filesystem tree.  A directory's children are encoded as a
`cons`-chain of named entries (`nil` terminated), in the lexical order in
which `filepath.Walk` enumerates them.  A file carries the result of decoding
it: either its ordered documents or a decode error. -/
inductive Fs where
  | file (content : Except String (List RNode))
  | dir (children : Fs)
  | nil
  | cons (name : String) (entry : Fs) (rest : Fs)
deriving Repr

/-- `os.Stat(filepath.Join(dir, name))` existence check: does the children
chain contain an entry with the given name (file or directory)? -/
def hasEntry : Fs → String → Bool
  | .cons n _ rest, m => n == m || hasEntry rest m
  | _, _ => false

/-- Slash-joining of path segments. -/
def joinPath : List String → String
  | [] => ""
  | [s] => s
  | s :: rest => s ++ "/" ++ joinPath rest

/-- `filepath.Base` of a segment path. -/
def baseName (p : List String) : String :=
  p.getLastD ""

/-- Go `path/filepath.Match`, restricted to patterns built from literal
characters, `?` and `*` (no character classes, so the malformed-pattern error
of the original cannot arise).  `*` matches any sequence of characters, `?`
exactly one.  The `fuel` argument only bounds the recursion; each step
shrinks `pattern.length + s.length`, so `globMatch` below always supplies
enough. -/
def globMatchFuel : Nat → List Char → List Char → Bool
  | 0, _, _ => false
  | _ + 1, [], [] => true
  | _ + 1, [], _ :: _ => false
  | fuel + 1, '*' :: ps, [] => globMatchFuel fuel ps []
  | fuel + 1, '*' :: ps, c :: s => globMatchFuel fuel ps (c :: s) || globMatchFuel fuel ('*' :: ps) s
  | _ + 1, _ :: _, [] => false
  | fuel + 1, p :: ps, c :: s => (p == '?' || p == c) && globMatchFuel fuel ps s

/-- `filepath.Match(pattern, name)`. -/
def globMatch (pattern name : String) : Bool :=
  globMatchFuel (pattern.length + name.length + 1) pattern.toList name.toList

/-- `LocalPackageReader` configuration, fields as in the source struct.
`SetAnnotations` is `Option` so that a Go `nil` map is distinguished from an
empty one (a nil map is replaced, not mutated, by `initReaderAnnotations`). -/
structure LocalPackageReader where
  Kind : String := ""
  PackagePath : String := ""
  PackageFileName : String := ""
  MatchFilesGlob : List String := []
  IncludeSubpackages : Bool := false
  ErrorIfNonResources : Bool := false
  OmitReaderAnnotations : Bool := false
  SetAnnotations : Option AnnMap := none

/-- `var DefaultMatch = []string{"*.yaml", "*.yml"}` -/
def DefaultMatch : List String := ["*.yaml", "*.yml"]

/-- `var JSONMatch = []string{"*.json"}` -/
def JSONMatch : List String := ["*.json"]

/-- `var MatchAll = append(DefaultMatch, JSONMatch...)` -/
def MatchAll : List String := DefaultMatch ++ JSONMatch

/-- `LocalPackageReader.ShouldSkipFile` (despite the name, the source returns
`true` when the file SHOULD be read): a file excluded by the ignore matcher
returns `false`; otherwise the result is whether any configured glob pattern
matches the file's base name. -/
def LocalPackageReader.ShouldSkipFile (r : LocalPackageReader) (oracle : IgnoreOracle)
    (loaded : List String) (p : List String) : Bool :=
  if oracle.fileMatch loaded (joinPath p) then false
  else r.MatchFilesGlob.any (fun g => globMatch g (baseName p))

/-- The outcome of `LocalPackageReader.ShouldSkipDir`: descend carrying the
(possibly extended) list of loaded ignore-file directories, skip the whole
subtree (`filepath.SkipDir`), or abort the walk with an error. -/
inductive DirDecision where
  | descend (loaded : List String)
  | skipDir
  | fail (e : String)
deriving DecidableEq, Repr

/-- `LocalPackageReader.ShouldSkipDir`.  With no package file name
configured, skip iff ignore-excluded.  Otherwise stat the marker file in the
directory: if absent, skip iff ignore-excluded; if present, skip unless
subpackages are included, and when included load the subpackage's own ignore
file (`readIgnoreFile`), which may fail. -/
def LocalPackageReader.ShouldSkipDir (r : LocalPackageReader) (oracle : IgnoreOracle)
    (loaded : List String) (p : List String) (children : Fs) : DirDecision :=
  if r.PackageFileName = "" then
    if oracle.dirMatch loaded (joinPath p) then .skipDir else .descend loaded
  else if !(hasEntry children r.PackageFileName) then
    if oracle.dirMatch loaded (joinPath p) then .skipDir else .descend loaded
  else if !r.IncludeSubpackages then .skipDir
  else
    match oracle.readErr (joinPath p) with
    | some e => .fail e
    | none => .descend (joinPath p :: loaded)

/-- `LocalPackageReader.initReaderAnnotations`: replace a nil map by an empty
one, then (unless annotations are suppressed) record the file's path under
the path-annotation key.  Returns the resulting map contents. -/
def initReaderAnnotations (omitRA : Bool) (cur : Option AnnMap) (path : String) : AnnMap :=
  let m := cur.getD []
  if omitRA then m else m.set PathAnnotationKey path

/-- Modelled from the spec: the Document Codec / `ByteReader` collaborator.
Each decoded document receives its zero-based index under the index
annotation (unless reader annotations are suppressed) and then every entry of
the `SetAnnotations` map. -/
def stampDoc (m : AnnMap) (omitRA : Bool) (i : Nat) (d : RNode) : RNode :=
  let d0 : AnnMap := if omitRA then d.anns else d.anns.set IndexAnnotationKey (toString i)
  ⟨m.foldl (fun a kv => a.set kv.1 kv.2) d0⟩

/-- All documents of one file, stamped in decode order. -/
def stampDocs (m : AnnMap) (omitRA : Bool) (docs : List RNode) : List RNode :=
  docs.enum.map (fun id => stampDoc m omitRA id.1 id.2)

/-- The mutable state threaded through the walk: the directories whose ignore
files have been loaded, the reader's `SetAnnotations` map (shared with the
caller when non-nil), and the accumulated output documents (`operand`). -/
structure WalkState where
  loaded : List String
  setAnn : Option AnnMap
  operand : List RNode
deriving Repr

/-- An aborted walk: the error message together with the contents of the
reader's `SetAnnotations` map at the moment of the abort.  Go mutates that
(possibly caller-shared) map via `initReaderAnnotations` before `readFile`
runs, so a decode failure leaves the mutation behind; the abort therefore
carries the map state so `LocalPackageReadWriter.readWith` can take it over
faithfully. -/
abbrev WalkErr := String × Option AnnMap

/-- The per-file part of the walk callback (source lines 218-238): skip the
file if `ShouldSkipFile` says so; otherwise relativize the path against the
base, call `initReaderAnnotations`, decode the file (a decode failure aborts
the walk, wrapped with the path, carrying the already-updated annotation
map) and append the stamped documents. -/
def visitFile (cfg : LocalPackageReader) (oracle : IgnoreOracle) (base : List String)
    (p : List String) (st : WalkState) (content : Except String (List RNode)) :
    Except WalkErr WalkState :=
  if cfg.ShouldSkipFile oracle st.loaded p then
    let rel := joinPath (p.drop base.length)
    let m := initReaderAnnotations cfg.OmitReaderAnnotations st.setAnn rel
    match content with
    | .error e => .error (rel ++ ": " ++ e, some m)
    | .ok docs =>
      .ok { st with setAnn := some m,
                    operand := st.operand ++ stampDocs m cfg.OmitReaderAnnotations docs }
  else .ok st

/-- The `filepath.Walk` traversal below the root (source lines 214-238):
depth-first over the encoded tree.  A `dir` entry is skipped, descended into,
or aborts according to `ShouldSkipDir`; a `cons`-chain visits the entry then
the remaining siblings, aborting on the first error, exactly as the walk
callback does.  Aborts carry the annotation-map state at the failure. -/
def walk (cfg : LocalPackageReader) (oracle : IgnoreOracle) (base : List String) :
    List String → WalkState → Fs → Except WalkErr WalkState
  | p, st, .file content => visitFile cfg oracle base p st content
  | p, st, .dir children =>
    match cfg.ShouldSkipDir oracle st.loaded p children with
    | .skipDir => .ok st
    | .fail e => .error (e, st.setAnn)
    | .descend l => walk cfg oracle base p { st with loaded := l } children
  | _, st, .nil => .ok st
  | p, st, .cons name e rest =>
    match walk cfg oracle base (p ++ [name]) st e with
    | .error er => .error er
    | .ok st' => walk cfg oracle base p st' rest

/-- The glob defaulting at the top of `LocalPackageReader.Read` (source
lines 182-184): an empty `MatchFilesGlob` defaults to `DefaultMatch`. -/
def LocalPackageReader.withDefaultGlob (r : LocalPackageReader) : LocalPackageReader :=
  { r with MatchFilesGlob := if r.MatchFilesGlob = [] then DefaultMatch else r.MatchFilesGlob }

/-- `LocalPackageReader.Read` (source lines 175-241), given the resolved
absolute root path (as slash segments, standing for the result of
`filepath.Abs(filepath.ToSlash(PackagePath))`) and the filesystem tree found
there.  An empty `PackagePath` is a configuration error.  A directory root
loads its own ignore file first and is the relativization base; a lone-file
root is relativized against its parent directory and goes straight to the
file filter. -/
def LocalPackageReader.readAbs (r : LocalPackageReader) (oracle : IgnoreOracle)
    (rootAbs : List String) (fs : Fs) : Except WalkErr WalkState :=
  if r.PackagePath = "" then .error ("must specify package path", r.SetAnnotations)
  else
    let cfg : LocalPackageReader := r.withDefaultGlob
    match fs with
    | .dir children =>
      match oracle.readErr (joinPath rootAbs) with
      | some e => .error (e, cfg.SetAnnotations)
      | none =>
        walk cfg oracle rootAbs rootAbs
          { loaded := [joinPath rootAbs], setAnn := cfg.SetAnnotations, operand := [] } children
    | .file content =>
      walk cfg oracle rootAbs.dropLast rootAbs
        { loaded := [], setAnn := cfg.SetAnnotations, operand := [] } (.file content)
    | _ => .error ("ill-formed filesystem", r.SetAnnotations)

/-- Modelled from the spec: `kioutil.GetFileAnnotations` (not part of the
source file), restricted to the path component used here.  Per spec §4.2,
failure to read a path annotation from a document is an error. -/
def GetFileAnnotations (d : RNode) : Except String String :=
  match d.get PathAnnotationKey with
  | some p => .ok p
  | none => .error "resource must have the path annotation"

/-- `sets.String.Insert` on the list encoding of a Go string set. -/
def insertStr (s : List String) (x : String) : List String :=
  if s.contains x then s else s ++ [x]

/-- `sets.String.Difference`: the elements of `s` not in `t`. -/
def diffStr (s t : List String) : List String :=
  s.filter (fun x => !(t.contains x))

/-- The loop of `LocalPackageReadWriter.getFiles`: extract each document's
path annotation into a set, failing on the first document without one. -/
def getFilesGo (val : List String) : List RNode → Except String (List String)
  | [] => .ok val
  | n :: rest =>
    match GetFileAnnotations n with
    | .error e => .error e
    | .ok p => getFilesGo (insertStr val p) rest

/-- `LocalPackageReadWriter.getFiles` (source lines 124-134). -/
def getFiles (nodes : List RNode) : Except String (List String) :=
  getFilesGo [] nodes

/-- `LocalPackageReadWriter` configuration and state; `files` is the
`sets.String` of paths recorded by the most recent successful read (the Go
zero value, a nil set, is the empty list). -/
structure LocalPackageReadWriter where
  Kind : String := ""
  KeepReaderAnnotations : Bool := false
  PackagePath : String := ""
  PackageFileName : String := ""
  MatchFilesGlob : List String := []
  IncludeSubpackages : Bool := false
  ErrorIfNonResources : Bool := false
  OmitReaderAnnotations : Bool := false
  SetAnnotations : Option AnnMap := none
  NoDeleteFiles : Bool := false
  files : List String := []

/-- The `LocalPackageReader` literal built inside
`LocalPackageReadWriter.Read` (source lines 77-84).  Fields not listed in the
literal (notably `OmitReaderAnnotations`) take their Go zero value. -/
def LocalPackageReadWriter.toReader (r : LocalPackageReadWriter) : LocalPackageReader :=
  { PackagePath := r.PackagePath
    MatchFilesGlob := r.MatchFilesGlob
    IncludeSubpackages := r.IncludeSubpackages
    ErrorIfNonResources := r.ErrorIfNonResources
    SetAnnotations := r.SetAnnotations
    PackageFileName := r.PackageFileName }

/-- The body of `LocalPackageReadWriter.Read` (source lines 76-96),
parametric in the result of the underlying `LocalPackageReader.Read` call
(on success the returned nodes together with the final contents of the
reader's `SetAnnotations` map; on failure the error and the map contents at
the abort).  Because Go maps are reference values, a non-nil
`SetAnnotations` on the read-writer is the same map the reader mutated, so
its contents are taken over — also when the reader failed after mutating it;
a nil one was replaced, not mutated, and stays nil.  On a successful read
with deletion tracking enabled, `r.files, err = r.getFiles(nodes)` assigns
both results, so a `getFiles` failure stores the nil set. -/
def LocalPackageReadWriter.readWith (r : LocalPackageReadWriter)
    (sub : Except WalkErr (List RNode × Option AnnMap)) :
    Except String (List RNode) × LocalPackageReadWriter :=
  match sub with
  | .error (e, abortAnn) =>
    (.error e, if r.SetAnnotations.isSome then { r with SetAnnotations := abortAnn } else r)
  | .ok (nodes, finalAnn) =>
    let r := if r.SetAnnotations.isSome then { r with SetAnnotations := finalAnn } else r
    if r.NoDeleteFiles then (.ok nodes, r)
    else
      match getFiles nodes with
      | .error e => (.error e, { r with files := [] })
      | .ok fs => (.ok nodes, { r with files := fs })

/-- `LocalPackageReadWriter.Read`: the composition of `toReader`,
`LocalPackageReader.readAbs` and the body above. -/
def LocalPackageReadWriter.Read (r : LocalPackageReadWriter) (oracle : IgnoreOracle)
    (rootAbs : List String) (fs : Fs) :
    Except String (List RNode) × LocalPackageReadWriter :=
  r.readWith ((r.toReader.readAbs oracle rootAbs fs).map (fun st => (st.operand, st.setAnn)))

/-- The call made to the external `LocalPackageWriter` collaborator by
`LocalPackageReadWriter.Write`. -/
structure WriterCall where
  PackagePath : String
  ClearAnnotations : List String
  KeepReaderAnnotations : Bool
  nodes : List RNode

/-- What a `LocalPackageReadWriter.Write` did: its returned error, the writer
call it made (if it got that far), the stale files whose removal was
attempted (in iteration order) and those actually removed. -/
structure WriteTrace where
  err : Option String
  writerCalled : Option WriterCall
  attempted : List String
  removed : List String

/-- The delete loop of `LocalPackageReadWriter.Write` (source lines 115-120):
remove each stale file under the package path in turn, returning immediately
on the first `os.Remove` failure.  `remove` models `os.Remove`; the result is
(attempted, removed, returned error). -/
def deleteLoopGo (pkg : String) (remove : String → Option String) :
    List String → List String × List String × Option String
  | [] => ([], [], none)
  | f :: rest =>
    match remove (pkg ++ "/" ++ f) with
    | some e => ([f], [], some e)
    | none =>
      let r := deleteLoopGo pkg remove rest
      (f :: r.1, f :: r.2.1, r.2.2)

/-- `LocalPackageReadWriter.Write` (source lines 98-122), parametric in the
external `LocalPackageWriter` (`writer`) and `os.Remove` (`remove`): compute
the new file set from the incoming nodes, collect the keys of
`SetAnnotations` as annotations to clear, delegate to the writer, then delete
`files − newFiles`. -/
def LocalPackageReadWriter.Write (r : LocalPackageReadWriter)
    (writer : WriterCall → Option String) (remove : String → Option String)
    (nodes : List RNode) : WriteTrace :=
  match getFiles nodes with
  | .error e => { err := some e, writerCalled := none, attempted := [], removed := [] }
  | .ok newFiles =>
    let clear := (r.SetAnnotations.getD []).keys
    let call : WriterCall :=
      { PackagePath := r.PackagePath, ClearAnnotations := clear,
        KeepReaderAnnotations := r.KeepReaderAnnotations, nodes := nodes }
    match writer call with
    | some e => { err := some e, writerCalled := some call, attempted := [], removed := [] }
    | none =>
      let d := deleteLoopGo r.PackagePath remove (diffStr r.files newFiles)
      { err := d.2.2, writerCalled := some call, attempted := d.1, removed := d.2.1 }

/-! ### Test fixtures: concrete ignore oracles, configurations and trees -/

/-- An ignore matcher whose rules exclude nothing and whose ignore files all
load successfully. -/
def oracleTrivial : IgnoreOracle :=
  { fileMatch := fun _ _ => false, dirMatch := fun _ _ => false, readErr := fun _ => none }

/-- An ignore matcher whose loaded rules exclude every file. -/
def oracleIgnoreFiles : IgnoreOracle :=
  { fileMatch := fun _ _ => true, dirMatch := fun _ _ => false, readErr := fun _ => none }

/-! ### Helper lemmas -/

theorem AnnMap.get_set_same (m : AnnMap) (k v : String) : (m.set k v).get k = some v := by
  unfold AnnMap.set AnnMap.get
  rw [List.find?_append]
  have h : (m.filter (fun kv => !(kv.1 == k))).find? (fun kv => kv.1 == k) = none := by
    rw [List.find?_eq_none]
    intro kv hkv
    have := List.of_mem_filter hkv
    simpa using this
  simp [h]

theorem AnnMap.mem_keys_of_get_isSome (m : AnnMap) (k : String)
    (h : (m.get k).isSome = true) : k ∈ m.keys := by
  unfold AnnMap.get at h
  cases hf : m.find? (fun kv => kv.1 == k) with
  | none => rw [hf] at h; simp at h
  | some kv =>
    have hmem : kv ∈ m := List.mem_of_find?_eq_some hf
    have hk : kv.1 = k := by
      have := List.find?_some hf
      simpa using this
    unfold AnnMap.keys
    exact hk ▸ List.mem_map_of_mem (·.1) hmem

theorem AnnMap.get_foldl_set_last (l : AnnMap) (d0 : AnnMap) (k v : String) :
    AnnMap.get ((l ++ [(k, v)]).foldl (fun a kv => a.set kv.1 kv.2) d0) k = some v := by
  rw [List.foldl_append]
  exact AnnMap.get_set_same _ k v

/-- A document stamped with a map whose final binding is the path annotation
carries that path annotation. -/
theorem stampDoc_get_of_set (m : AnnMap) (path : String) (o : Bool) (i : Nat) (d : RNode) :
    (stampDoc (m.set PathAnnotationKey path) o i d).get PathAnnotationKey = some path := by
  unfold stampDoc RNode.get AnnMap.set
  exact AnnMap.get_foldl_set_last _ _ _ _

theorem mem_of_mem_diffStr {s t : List String} {f : String} (h : f ∈ diffStr s t) : f ∈ s :=
  List.mem_of_mem_filter h

theorem deleteLoopGo_all_ok (pkg : String) (remove : String → Option String) (l : List String)
    (h : ∀ f ∈ l, remove (pkg ++ "/" ++ f) = none) :
    deleteLoopGo pkg remove l = (l, l, none) := by
  induction l with
  | nil => rfl
  | cons f rest ih =>
    have hf : remove (pkg ++ "/" ++ f) = none := h f (List.mem_cons_self f rest)
    have hrest := ih (fun g hg => h g (List.mem_cons_of_mem f hg))
    simp [deleteLoopGo, hf, hrest]

theorem deleteLoopGo_removed_subset (pkg : String) (remove : String → Option String)
    (l : List String) : ∀ f ∈ (deleteLoopGo pkg remove l).2.1, f ∈ l := by
  induction l with
  | nil => intro f hf; simp [deleteLoopGo] at hf
  | cons g rest ih =>
    intro f hf
    unfold deleteLoopGo at hf
    cases hr : remove (pkg ++ "/" ++ g) with
    | some e => rw [hr] at hf; simp at hf
    | none =>
      rw [hr] at hf
      simp only at hf
      rcases List.mem_cons.mp hf with h | h
      · exact h ▸ List.mem_cons_self g rest
      · exact List.mem_cons_of_mem g (ih f h)

/-- The reader's `SetAnnotations` state is a non-nil map containing the
path-annotation key. -/
def pathKeyOpt (s : Option AnnMap) : Prop :=
  ∃ m, s = some m ∧ (AnnMap.get m PathAnnotationKey).isSome = true

/-- Invariants of the traversal below the root, when reader annotations are
not suppressed: the output only grows; documents carrying the path
annotation keep carrying it; once the `SetAnnotations` map holds the
path-annotation key it keeps holding it; and whenever the output grew, the
map holds the path-annotation key. -/
theorem walk_invariants (cfg : LocalPackageReader) (oracle : IgnoreOracle) (base : List String)
    (homit : cfg.OmitReaderAnnotations = false) :
    ∀ (fs : Fs) (p : List String) (st st' : WalkState),
      walk cfg oracle base p st fs = .ok st' →
      st.operand.length ≤ st'.operand.length
      ∧ ((∀ d ∈ st.operand, (d.get PathAnnotationKey).isSome = true) →
          ∀ d ∈ st'.operand, (d.get PathAnnotationKey).isSome = true)
      ∧ (pathKeyOpt st.setAnn → pathKeyOpt st'.setAnn)
      ∧ (st.operand.length < st'.operand.length → pathKeyOpt st'.setAnn) := by
  intro fs
  induction fs with
  | file content =>
    intro p st st' h
    simp only [walk, visitFile, homit] at h
    split at h
    case isFalse hskip =>
      obtain rfl : st = st' := by simpa using h
      exact ⟨le_refl _, fun hp => hp, fun hk => hk, fun hlt => absurd hlt (lt_irrefl _)⟩
    case isTrue hread =>
      cases content with
      | error e => simp at h
      | ok docs =>
        simp only [initReaderAnnotations, Bool.false_eq_true, if_false] at h
        obtain rfl : _ = st' := by simpa using h
        refine ⟨by simp, fun hp d hd => ?_, fun _ => ?_, fun _ => ?_⟩
        · rcases List.mem_append.mp hd with hold | hnew
          · exact hp d hold
          · simp only [stampDocs, List.mem_map] at hnew
            obtain ⟨id, _, rfl⟩ := hnew
            rw [stampDoc_get_of_set]
            rfl
        · exact ⟨_, rfl, by rw [AnnMap.get_set_same]; rfl⟩
        · exact ⟨_, rfl, by rw [AnnMap.get_set_same]; rfl⟩
  | dir children ih =>
    intro p st st' h
    simp only [walk] at h
    cases hd : cfg.ShouldSkipDir oracle st.loaded p children with
    | skipDir =>
      rw [hd] at h
      obtain rfl : st = st' := by simpa using h
      exact ⟨le_refl _, fun hp => hp, fun hk => hk, fun hlt => absurd hlt (lt_irrefl _)⟩
    | fail e => rw [hd] at h; simp at h
    | descend l =>
      rw [hd] at h
      exact ih p { st with loaded := l } st' h
  | nil =>
    intro p st st' h
    obtain rfl : st = st' := by simpa [walk] using h
    exact ⟨le_refl _, fun hp => hp, fun hk => hk, fun hlt => absurd hlt (lt_irrefl _)⟩
  | cons name e rest ihe ihrest =>
    intro p st st' h
    simp only [walk] at h
    cases hm : walk cfg oracle base (p ++ [name]) st e with
    | error er => rw [hm] at h; simp at h
    | ok stm =>
      rw [hm] at h
      have h1 := ihe (p ++ [name]) st stm hm
      have h2 := ihrest p stm st' h
      refine ⟨le_trans h1.1 h2.1, fun hp => h2.2.1 (h1.2.1 hp),
        fun hk => h2.2.2.1 (h1.2.2.1 hk), fun hlt => ?_⟩
      by_cases hlt1 : st.operand.length < stm.operand.length
      · exact h2.2.2.1 (h1.2.2.2 hlt1)
      · have heq : st.operand.length = stm.operand.length :=
          le_antisymm h1.1 (not_lt.mp hlt1)
        exact h2.2.2.2 (heq ▸ hlt)

/-- Consequences for a full `LocalPackageReader` read starting from an empty
output: every returned document carries the path annotation, and if any
document was returned the final map state holds the path-annotation key. -/
theorem readAbs_invariants (cfg : LocalPackageReader) (oracle : IgnoreOracle)
    (rootAbs : List String) (fs : Fs) (st' : WalkState)
    (homit : cfg.OmitReaderAnnotations = false)
    (h : cfg.readAbs oracle rootAbs fs = .ok st') :
    (∀ d ∈ st'.operand, (d.get PathAnnotationKey).isSome = true)
    ∧ (st'.operand ≠ [] → pathKeyOpt st'.setAnn) := by
  have homitS : cfg.withDefaultGlob.OmitReaderAnnotations = false := homit
  simp only [LocalPackageReader.readAbs] at h
  split at h
  · simp at h
  · cases fs with
    | file content =>
      simp only at h
      have hw := walk_invariants _ oracle rootAbs.dropLast homitS _ rootAbs _ st' h
      exact ⟨hw.2.1 (by simp), fun hne => hw.2.2.2 (by
        simpa using List.length_pos.mpr hne)⟩
    | dir children =>
      simp only at h
      cases hre : oracle.readErr (joinPath rootAbs) with
      | some e => rw [hre] at h; simp at h
      | none =>
        rw [hre] at h
        simp only at h
        have hw := walk_invariants _ oracle rootAbs homitS _ rootAbs _ st' h
        exact ⟨hw.2.1 (by simp), fun hne => hw.2.2.2 (by
          simpa using List.length_pos.mpr hne)⟩
    | nil => simp at h
    | cons n e rest => simp at h

/-- Inversion of a successful `LocalPackageReadWriter.Read` body: the nodes
returned are the ones the reader produced, and (when the caller's map was
non-nil, hence aliased) the stored map took over the reader's final
contents. -/
theorem readWith_ok_inv (r : LocalPackageReadWriter) (ns : List RNode) (fin : Option AnnMap)
    (nodes : List RNode) (r' : LocalPackageReadWriter)
    (h : r.readWith (.ok (ns, fin)) = (.ok nodes, r')) :
    nodes = ns ∧ (r.SetAnnotations.isSome = true → r'.SetAnnotations = fin) := by
  simp only [LocalPackageReadWriter.readWith] at h
  by_cases hs : r.SetAnnotations.isSome = true
  · rw [if_pos hs] at h
    cases hnd : r.NoDeleteFiles with
    | true =>
      simp only [hnd, if_true] at h
      simp only [Prod.mk.injEq, Except.ok.injEq] at h
      exact ⟨h.1.symm, fun _ => by rw [← h.2]⟩
    | false =>
      simp only [hnd, Bool.false_eq_true, if_false] at h
      cases hg : getFiles ns with
      | error e => rw [hg] at h; simp at h
      | ok fileSet =>
        rw [hg] at h
        simp only [Prod.mk.injEq, Except.ok.injEq] at h
        exact ⟨h.1.symm, fun _ => by rw [← h.2]⟩
  · rw [if_neg hs] at h
    cases hnd : r.NoDeleteFiles with
    | true =>
      simp only [hnd, if_true] at h
      simp only [Prod.mk.injEq, Except.ok.injEq] at h
      exact ⟨h.1.symm, fun hs' => absurd hs' hs⟩
    | false =>
      simp only [hnd, Bool.false_eq_true, if_false] at h
      cases hg : getFiles ns with
      | error e => rw [hg] at h; simp at h
      | ok fileSet =>
        rw [hg] at h
        simp only [Prod.mk.injEq, Except.ok.injEq] at h
        exact ⟨h.1.symm, fun hs' => absurd hs' hs⟩

/-! ### Concrete configurations and trees used by the claim theorems -/

/-- A reader over package `pkg` with default globs and a sub-package marker
file name configured. -/
def cfgC3 : LocalPackageReader := { PackagePath := "pkg", PackageFileName := "Krmfile" }

/-- `pkg/sub/x.yaml`, where `sub` is a plain directory (no marker file). -/
def fsC3 : Fs :=
  .dir (.cons "sub" (.dir (.cons "x.yaml" (.file (.ok [⟨[]⟩])) .nil)) .nil)

/-- The children of a sub-package directory: a marker file `Krmfile` and a
resource file. -/
def fsC4sub : Fs :=
  .cons "Krmfile" (.file (.ok [])) (.cons "y.yaml" (.file (.ok [⟨[]⟩])) .nil)

/-- A reader over package `pkg` with everything else defaulted. -/
def cfgC8 : LocalPackageReader := { PackagePath := "pkg" }

/-- `pkg/{a.yaml, b.json, c.yml}`, each file holding one document tagged with
an `id` annotation naming its file. -/
def fsC8 : Fs :=
  .dir (.cons "a.yaml" (.file (.ok [⟨[("id", "A")]⟩]))
       (.cons "b.json" (.file (.ok [⟨[("id", "B")]⟩]))
       (.cons "c.yml" (.file (.ok [⟨[("id", "C")]⟩])) .nil)))

/-- A read-writer that has recorded `a.yaml` and `b.yaml` from its last
read. -/
def rC5 : LocalPackageReadWriter := { PackagePath := "pkg", files := ["a.yaml", "b.yaml"] }

/-! ### The claims -/

/-- C3 counterexample: with a sub-package marker name configured, reading
`pkg/sub/x.yaml` (where `sub` holds no marker and no ignore rule excludes
anything) does descend into `sub` — one document is produced — but the only
directory whose ignore file was ever loaded (`readIgnoreFile`) is the root
`pkg`: `sub`'s own ignore rules are not loaded on entry, contrary to the
claim. -/
theorem c3_counterexample :
    (cfgC3.readAbs oracleTrivial ["pkg"] fsC3).toOption.map
      (fun st => (st.operand.length, st.loaded)) = some (1, ["pkg"]) := rfl

/-- C3 (amended): for a directory without the configured marker that the
ignore matcher does not exclude, the traversal descends, but with the
matcher state unchanged: the directory's own ignore rules are not loaded
(`readIgnoreFile` is invoked only for the root and for included sub-package
roots). -/
theorem c3_descend_without_loading_ignore_rules (cfg : LocalPackageReader)
    (oracle : IgnoreOracle) (loaded p : List String) (children : Fs)
    (hne : cfg.PackageFileName ≠ "")
    (habs : hasEntry children cfg.PackageFileName = false)
    (hnm : oracle.dirMatch loaded (joinPath p) = false) :
    cfg.ShouldSkipDir oracle loaded p children = .descend loaded := by
  simp [LocalPackageReader.ShouldSkipDir, hne, habs, hnm]

/-- C3 witness: the amended statement at the concrete `pkg/sub` directory. -/
theorem c3_witness :
    cfgC3.ShouldSkipDir oracleTrivial ["pkg"] ["pkg", "sub"]
      (.cons "x.yaml" (.file (.ok [⟨[]⟩])) .nil) = .descend ["pkg"] :=
  c3_descend_without_loading_ignore_rules cfgC3 oracleTrivial ["pkg"] ["pkg", "sub"]
    (.cons "x.yaml" (.file (.ok [⟨[]⟩])) .nil) (by decide) rfl rfl

/-- C4: a directory containing an entry named by the configured sub-package
marker is skipped when `IncludeSubpackages` is false, for every ignore
matcher (its rules are not consulted), and the walk does not descend into
it: the traversal state is returned untouched. -/
theorem c4_subpackage_never_descended (cfg : LocalPackageReader) (o₁ o₂ : IgnoreOracle)
    (base loaded p : List String) (st : WalkState) (children : Fs)
    (hne : cfg.PackageFileName ≠ "")
    (hpres : hasEntry children cfg.PackageFileName = true)
    (hinc : cfg.IncludeSubpackages = false) :
    cfg.ShouldSkipDir o₁ loaded p children = .skipDir
    ∧ walk cfg o₂ base p st (.dir children) = .ok st := by
  have hsk : ∀ (o : IgnoreOracle) (l : List String),
      cfg.ShouldSkipDir o l p children = .skipDir := by
    intro o l
    simp [LocalPackageReader.ShouldSkipDir, hne, hpres, hinc]
  refine ⟨hsk o₁ loaded, ?_⟩
  simp [walk, hsk o₂ st.loaded]

/-- C4 witness: the sub-package `pkg/sub` (marker present) is skipped under
an ignore matcher that excludes every file, and the walk over it returns its
input state unchanged. -/
theorem c4_witness :
    cfgC3.ShouldSkipDir oracleIgnoreFiles [] ["pkg", "sub"] fsC4sub = .skipDir
    ∧ walk cfgC3 oracleTrivial ["pkg"] ["pkg", "sub"]
        { loaded := ["pkg"], setAnn := none, operand := [] } (.dir fsC4sub)
      = .ok { loaded := ["pkg"], setAnn := none, operand := [] } :=
  c4_subpackage_never_descended cfgC3 oracleIgnoreFiles oracleTrivial ["pkg"] [] ["pkg", "sub"]
    { loaded := ["pkg"], setAnn := none, operand := [] } fsC4sub (by decide) rfl rfl

/-- C5 counterexample: with stale files `a.yaml` and `b.yaml` and an
`os.Remove` that fails, `b.yaml` is in the computed difference but its
deletion is never attempted — the loop aborted at the first failure,
contrary to the claim that every stale file has its deletion attempted. -/
theorem c5_counterexample :
    "b.yaml" ∈ diffStr rC5.files []
    ∧ (rC5.Write (fun _ => none) (fun _ => some "permission denied") []).attempted = ["a.yaml"]
    ∧ "b.yaml" ∉ (rC5.Write (fun _ => none) (fun _ => some "permission denied") []).attempted :=
  ⟨by decide, rfl, by decide⟩

/-- C5 (amended): the delete loop attempts removals in order only up to and
including the first failure — later stale files are not attempted — and the
first deletion error observed is the one returned. -/
theorem c5_delete_loop_stops_at_first_error (pkg : String) (remove : String → Option String)
    (pre : List String) (f : String) (rest : List String) (e : String)
    (hpre : ∀ g ∈ pre, remove (pkg ++ "/" ++ g) = none)
    (hf : remove (pkg ++ "/" ++ f) = some e) :
    deleteLoopGo pkg remove (pre ++ f :: rest) = (pre ++ [f], pre, some e) := by
  induction pre with
  | nil => simp [deleteLoopGo, hf]
  | cons g pre ih =>
    have hg : remove (pkg ++ "/" ++ g) = none := hpre g (List.mem_cons_self g pre)
    have ih' := ih (fun x hx => hpre x (List.mem_cons_of_mem g hx))
    simp [deleteLoopGo, hg, ih']

/-- C5 witness: `a.yaml` is removed, removal of `b.yaml` fails, and `c.yaml`
is never attempted; the error returned is the one from `b.yaml`. -/
theorem c5_witness :
    deleteLoopGo "pkg" (fun q => if q == "pkg/a.yaml" then none else some "EPERM")
      (["a.yaml"] ++ "b.yaml" :: ["c.yaml"]) = (["a.yaml"] ++ ["b.yaml"], ["a.yaml"], some "EPERM") :=
  c5_delete_loop_stops_at_first_error "pkg" (fun q => if q == "pkg/a.yaml" then none else some "EPERM")
    ["a.yaml"] "b.yaml" ["c.yaml"] "EPERM" (by decide) rfl

/-- C6: a file whose path the ignore matcher excludes is never opened or
decoded: `ShouldSkipFile` answers `false` (skip) whatever the configured
globs, and the walk leaves the state untouched for any file content,
including content whose decoding would fail. -/
theorem c6_ignored_file_never_read (cfg : LocalPackageReader) (oracle : IgnoreOracle)
    (base p : List String) (st : WalkState) (content : Except String (List RNode))
    (hm : oracle.fileMatch st.loaded (joinPath p) = true) :
    cfg.ShouldSkipFile oracle st.loaded p = false
    ∧ walk cfg oracle base p st (.file content) = .ok st := by
  have h1 : cfg.ShouldSkipFile oracle st.loaded p = false := by
    simp [LocalPackageReader.ShouldSkipFile, hm]
  exact ⟨h1, by simp [walk, visitFile, h1]⟩

/-- C6 witness: `pkg/a.yaml` matches the configured glob `*.yaml`, yet under
a matcher that excludes it, the file is skipped and its (malformed, would
fail to decode) content is never touched. -/
theorem c6_witness :
    ({ PackagePath := "pkg", MatchFilesGlob := ["*.yaml"] } : LocalPackageReader).ShouldSkipFile
        oracleIgnoreFiles ["pkg"] ["pkg", "a.yaml"] = false
    ∧ walk { PackagePath := "pkg", MatchFilesGlob := ["*.yaml"] } oracleIgnoreFiles ["pkg"]
        ["pkg", "a.yaml"] { loaded := ["pkg"], setAnn := none, operand := [] }
        (.file (.error "malformed")) = .ok { loaded := ["pkg"], setAnn := none, operand := [] } :=
  c6_ignored_file_never_read { PackagePath := "pkg", MatchFilesGlob := ["*.yaml"] }
    oracleIgnoreFiles ["pkg"] ["pkg", "a.yaml"]
    { loaded := ["pkg"], setAnn := none, operand := [] } (.error "malformed") rfl

/-- C8: `DefaultMatch` is `["*.yaml", "*.yml"]`; for non-ignored files the
glob filter depends only on the file's base name; and reading `pkg`
containing `a.yaml`, `b.json`, `c.yml` with an empty (hence defaulted)
`MatchFilesGlob` yields exactly the documents of `a.yaml` and `c.yml`, in
that order. -/
theorem c8_default_glob_base_name_only (cfg : LocalPackageReader) (o : IgnoreOracle)
    (loaded p q : List String)
    (hbase : baseName p = baseName q)
    (hp : o.fileMatch loaded (joinPath p) = false)
    (hq : o.fileMatch loaded (joinPath q) = false) :
    DefaultMatch = ["*.yaml", "*.yml"]
    ∧ cfg.ShouldSkipFile o loaded p = cfg.ShouldSkipFile o loaded q
    ∧ cfgC8.MatchFilesGlob = []
    ∧ (cfgC8.readAbs oracleTrivial ["pkg"] fsC8).toOption.map
        (fun st => (st.operand.map (fun d => d.get "id"),
                    st.operand.map (fun d => d.get PathAnnotationKey)))
      = some ([some "A", some "C"], [some "a.yaml", some "c.yml"]) := by
  refine ⟨rfl, ?_, rfl, rfl⟩
  simp [LocalPackageReader.ShouldSkipFile, hp, hq, hbase]

/-- C8 witness: instantiated at two paths `pkg/sub/c.yml` and `pkg/c.yml`
sharing the base name `c.yml`. -/
theorem c8_witness :
    DefaultMatch = ["*.yaml", "*.yml"]
    ∧ cfgC8.ShouldSkipFile oracleTrivial ["pkg"] ["pkg", "sub", "c.yml"]
      = cfgC8.ShouldSkipFile oracleTrivial ["pkg"] ["pkg", "c.yml"]
    ∧ cfgC8.MatchFilesGlob = []
    ∧ (cfgC8.readAbs oracleTrivial ["pkg"] fsC8).toOption.map
        (fun st => (st.operand.map (fun d => d.get "id"),
                    st.operand.map (fun d => d.get PathAnnotationKey)))
      = some ([some "A", some "C"], [some "a.yaml", some "c.yml"]) :=
  c8_default_glob_base_name_only cfgC8 oracleTrivial ["pkg"] ["pkg", "sub", "c.yml"]
    ["pkg", "c.yml"] rfl rfl rfl

/-- A read-writer whose last successful read recorded `a.yaml` and
`b.yaml`. -/
def rC1 : LocalPackageReadWriter := { PackagePath := "pkg", files := ["a.yaml", "b.yaml"] }

/-- One document annotated as coming from `a.yaml`. -/
def nodesC1 : List RNode := [⟨[(PathAnnotationKey, "a.yaml")]⟩]

/-- C1: when the writer and every removal succeed, `Write` deletes exactly
the recorded file set minus the paths of the incoming documents; moreover —
for any writer and removal behaviour — only files from the recorded set are
ever deleted, and with an empty recorded set (the state before any
successful read) nothing is deleted. -/
theorem c1_write_deletes_exactly_stale_files (r : LocalPackageReadWriter)
    (writer : WriterCall → Option String) (remove : String → Option String)
    (nodes : List RNode) (newFiles : List String)
    (hg : getFiles nodes = .ok newFiles)
    (hw : ∀ c, writer c = none)
    (hrm : ∀ q, remove q = none) :
    (r.Write writer remove nodes).removed = diffStr r.files newFiles
    ∧ (∀ (w' : WriterCall → Option String) (rm' : String → Option String)
        (ns' : List RNode), ∀ f ∈ (r.Write w' rm' ns').removed, f ∈ r.files)
    ∧ (r.files = [] →
        ∀ (w' : WriterCall → Option String) (rm' : String → Option String)
          (ns' : List RNode), (r.Write w' rm' ns').removed = []) := by
  refine ⟨?_, ?_, ?_⟩
  · simp only [LocalPackageReadWriter.Write, hg, hw]
    rw [deleteLoopGo_all_ok r.PackagePath remove _ (fun f _ => hrm _)]
  · intro w' rm' ns' f hf
    unfold LocalPackageReadWriter.Write at hf
    split at hf
    · simp at hf
    · dsimp only at hf
      split at hf
      · simp at hf
      · dsimp only at hf
        exact mem_of_mem_diffStr (deleteLoopGo_removed_subset _ _ _ f hf)
  · intro h0 w' rm' ns'
    unfold LocalPackageReadWriter.Write
    split
    · rfl
    · dsimp only
      split
      · rfl
      · dsimp only
        rw [h0]
        simp [diffStr, deleteLoopGo]

/-- C1 witness: with `a.yaml` and `b.yaml` recorded and only `a.yaml`
written back, exactly `b.yaml` is deleted; and `b.yaml`, the one file
deleted, was indeed part of the recorded set. -/
theorem c1_witness :
    (rC1.Write (fun _ => none) (fun _ => none) nodesC1).removed = diffStr rC1.files ["a.yaml"]
    ∧ "b.yaml" ∈ rC1.files :=
  ⟨(c1_write_deletes_exactly_stale_files rC1 (fun _ => none) (fun _ => none) nodesC1
      ["a.yaml"] rfl (fun _ => rfl) (fun _ => rfl)).1,
   (c1_write_deletes_exactly_stale_files rC1 (fun _ => none) (fun _ => none) nodesC1
      ["a.yaml"] rfl (fun _ => rfl) (fun _ => rfl)).2.1
     (fun _ => none) (fun _ => none) nodesC1 "b.yaml" (by decide)⟩

/-- A read-writer that has recorded `a.yaml` from its last read. -/
def rC2 : LocalPackageReadWriter := { PackagePath := "pkg", files := ["a.yaml"] }

/-- C2 counterexample: the read-writer has `a.yaml` recorded; the underlying
reader succeeds but returns a document with no path annotation, so the read
returns the annotation-extraction error — and the stored file set is NOT
left unchanged: `r.files, err = r.getFiles(nodes)` overwrote it with the nil
set. -/
theorem c2_counterexample :
    rC2.files = ["a.yaml"]
    ∧ (rC2.readWith (.ok ([⟨[]⟩], none))).1 = .error "resource must have the path annotation"
    ∧ (rC2.readWith (.ok ([⟨[]⟩], none))).2.files = [] :=
  ⟨rfl, rfl, rfl⟩

/-- C2 (amended): if the underlying tree walk fails, the error is passed on
and the stored file set is left unchanged — though a non-nil shared
`SetAnnotations` map keeps whatever mutations the reader made before the
failure, so the rest of the read-writer is not untouched; but if extracting
path annotations fails, the stored file set is overwritten with the empty
(nil) set rather than left unchanged. -/
theorem c2_failed_read_resets_file_set (r : LocalPackageReadWriter) (we : WalkErr)
    (e' : String) (nodes : List RNode) (fin : Option AnnMap)
    (hnd : r.NoDeleteFiles = false) (hgf : getFiles nodes = .error e') :
    (r.readWith (.error we)).1 = .error we.1
    ∧ (r.readWith (.error we)).2.files = r.files
    ∧ (r.SetAnnotations.isSome = true → (r.readWith (.error we)).2.SetAnnotations = we.2)
    ∧ (r.readWith (.ok (nodes, fin))).1 = .error e'
    ∧ (r.readWith (.ok (nodes, fin))).2.files = [] := by
  obtain ⟨e, abortAnn⟩ := we
  refine ⟨rfl, ?_, ?_, ?_, ?_⟩
  · simp only [LocalPackageReadWriter.readWith]
    by_cases hs : r.SetAnnotations.isSome = true
    · rw [if_pos hs]
    · rw [if_neg hs]
  · intro hs
    simp only [LocalPackageReadWriter.readWith]
    rw [if_pos hs]
  all_goals
    simp only [LocalPackageReadWriter.readWith]
    by_cases hs : r.SetAnnotations.isSome = true
    · rw [if_pos hs]
      simp [hnd, hgf]
    · rw [if_neg hs]
      simp [hnd, hgf]

/-- C2 witness: the amended statement at a concrete read-writer whose walk
failed after the reader already put the path-annotation key into the shared
map, and at a concrete annotation-less document. -/
theorem c2_witness :
    (rC2.readWith (.error ("walk failed", some [(PathAnnotationKey, "a.yaml")]))).1
      = .error "walk failed"
    ∧ (rC2.readWith (.error ("walk failed", some [(PathAnnotationKey, "a.yaml")]))).2.files
      = rC2.files
    ∧ (rC2.SetAnnotations.isSome = true →
        (rC2.readWith (.error ("walk failed", some [(PathAnnotationKey, "a.yaml")]))).2.SetAnnotations
          = some [(PathAnnotationKey, "a.yaml")])
    ∧ (rC2.readWith (.ok ([⟨[]⟩], none))).1 = .error "resource must have the path annotation"
    ∧ (rC2.readWith (.ok ([⟨[]⟩], none))).2.files = [] :=
  c2_failed_read_resets_file_set rC2 ("walk failed", some [(PathAnnotationKey, "a.yaml")])
    "resource must have the path annotation" [⟨[]⟩] none rfl rfl

/-- C7: when the resolved root names a single file, every document the read
produces carries the file's base name as its path annotation — never a path
through the parent directory. -/
theorem c7_lone_file_path_annotation_is_base_name (cfg : LocalPackageReader)
    (oracle : IgnoreOracle) (parent : List String) (fname : String)
    (content : Except String (List RNode)) (st' : WalkState)
    (homit : cfg.OmitReaderAnnotations = false)
    (h : cfg.readAbs oracle (parent ++ [fname]) (.file content) = .ok st') :
    ∀ d ∈ st'.operand, d.get PathAnnotationKey = some fname := by
  have homitS : cfg.withDefaultGlob.OmitReaderAnnotations = false := homit
  simp only [LocalPackageReader.readAbs] at h
  split at h
  · simp at h
  · rw [show (parent ++ [fname]).dropLast = parent by simp] at h
    simp only [walk, visitFile] at h
    split at h
    case isTrue hread =>
      cases content with
      | error e => simp at h
      | ok docs =>
        rw [List.drop_left] at h
        simp only [joinPath] at h
        simp only [initReaderAnnotations, homitS, Bool.false_eq_true, if_false] at h
        obtain rfl : _ = st' := by simpa using h
        intro d hd
        simp only [List.nil_append, stampDocs, List.mem_map] at hd
        obtain ⟨id, _, rfl⟩ := hd
        exact stampDoc_get_of_set _ fname _ _ _
    case isFalse hskip =>
      obtain rfl : _ = st' := by simpa using h
      intro d hd
      simp at hd

/-- A reader whose root path names the single file `pkg/a.yaml`. -/
def cfgC7 : LocalPackageReader := { PackagePath := "pkg/a.yaml" }

/-- C7 witness: reading the lone file `pkg/a.yaml` stamps the base name
`a.yaml` (not `pkg/a.yaml`) on the produced document. -/
theorem c7_witness :
    (⟨[(IndexAnnotationKey, "0"), (PathAnnotationKey, "a.yaml")]⟩ : RNode).get
      PathAnnotationKey = some "a.yaml" :=
  c7_lone_file_path_annotation_is_base_name cfgC7 oracleTrivial ["pkg"] "a.yaml"
    (.ok [⟨[]⟩])
    { loaded := [], setAnn := some [(PathAnnotationKey, "a.yaml")],
      operand := [⟨[(IndexAnnotationKey, "0"), (PathAnnotationKey, "a.yaml")]⟩] }
    rfl rfl ⟨[(IndexAnnotationKey, "0"), (PathAnnotationKey, "a.yaml")]⟩ (by decide)

/-- C9: the `LocalPackageReader` literal built by
`LocalPackageReadWriter.Read` leaves `OmitReaderAnnotations` at its zero
value even when the read-writer's own flag is set, so every document a
successful read returns still carries the path annotation: the read-writer's
suppression flag is silently ignored. -/
theorem c9_omit_annotations_not_forwarded (r : LocalPackageReadWriter)
    (oracle : IgnoreOracle) (rootAbs : List String) (fs : Fs) (nodes : List RNode)
    (r' : LocalPackageReadWriter)
    (_homit : r.OmitReaderAnnotations = true)
    (h : r.Read oracle rootAbs fs = (.ok nodes, r')) :
    r.toReader.OmitReaderAnnotations = false
    ∧ ∀ d ∈ nodes, (d.get PathAnnotationKey).isSome = true := by
  refine ⟨rfl, ?_⟩
  unfold LocalPackageReadWriter.Read at h
  cases hra : r.toReader.readAbs oracle rootAbs fs with
  | error e =>
    rw [hra] at h
    simp [LocalPackageReadWriter.readWith, Except.map] at h
  | ok st =>
    rw [hra] at h
    simp only [Except.map] at h
    have hinv := readWith_ok_inv r st.operand st.setAnn nodes r' h
    have hIi := readAbs_invariants r.toReader oracle rootAbs fs st rfl hra
    rw [hinv.1]
    exact hIi.1

/-- `pkg/a.yaml` holding one bare document. -/
def fsC9 : Fs := .dir (.cons "a.yaml" (.file (.ok [⟨[]⟩])) .nil)

/-- A read-writer asking for reader annotations to be suppressed. -/
def rC9 : LocalPackageReadWriter := { PackagePath := "pkg", OmitReaderAnnotations := true }

/-- The same read-writer after its read recorded `a.yaml`. -/
def rC9out : LocalPackageReadWriter :=
  { PackagePath := "pkg", OmitReaderAnnotations := true, files := ["a.yaml"] }

/-- The documents `rC9` reads from `fsC9`: annotated despite the flag. -/
def nodesC9 : List RNode := [⟨[(IndexAnnotationKey, "0"), (PathAnnotationKey, "a.yaml")]⟩]

/-- C9 witness: with `OmitReaderAnnotations` set on the read-writer, the
constructed reader still has it false, and the document read from `fsC9`
carries the path annotation. -/
theorem c9_witness :
    rC9.toReader.OmitReaderAnnotations = false
    ∧ ((⟨[(IndexAnnotationKey, "0"), (PathAnnotationKey, "a.yaml")]⟩ : RNode).get
        PathAnnotationKey).isSome = true :=
  ⟨(c9_omit_annotations_not_forwarded rC9 oracleTrivial ["pkg"] fsC9 nodesC9 rC9out
      rfl rfl).1,
   (c9_omit_annotations_not_forwarded rC9 oracleTrivial ["pkg"] fsC9 nodesC9 rC9out
      rfl rfl).2 ⟨[(IndexAnnotationKey, "0"), (PathAnnotationKey, "a.yaml")]⟩ (by decide)⟩

/-- C10: with a non-nil caller-supplied `SetAnnotations` map and annotation
suppression off, a successful read that produced at least one document has
inserted the path-annotation key into the shared map, and every subsequent
`Write` that reaches the writer lists the path annotation among the
annotations it clears. -/
theorem c10_shared_map_gains_path_key_and_write_clears_it (r : LocalPackageReadWriter)
    (oracle : IgnoreOracle) (rootAbs : List String) (fs : Fs) (m₀ : AnnMap)
    (nodes : List RNode) (r' : LocalPackageReadWriter)
    (writer : WriterCall → Option String) (remove : String → Option String)
    (nodes₂ : List RNode) (c : WriterCall)
    (_homit : r.OmitReaderAnnotations = false)
    (hsa : r.SetAnnotations = some m₀)
    (h : r.Read oracle rootAbs fs = (.ok nodes, r'))
    (hne : nodes ≠ []) :
    (∃ m', r'.SetAnnotations = some m'
        ∧ (AnnMap.get m' PathAnnotationKey).isSome = true)
    ∧ ((r'.Write writer remove nodes₂).writerCalled = some c →
        PathAnnotationKey ∈ c.ClearAnnotations) := by
  unfold LocalPackageReadWriter.Read at h
  cases hra : r.toReader.readAbs oracle rootAbs fs with
  | error e =>
    rw [hra] at h
    simp [LocalPackageReadWriter.readWith, Except.map] at h
  | ok st =>
    rw [hra] at h
    simp only [Except.map] at h
    have hinv := readWith_ok_inv r st.operand st.setAnn nodes r' h
    have hsome : r.SetAnnotations.isSome = true := by rw [hsa]; rfl
    have hset : r'.SetAnnotations = st.setAnn := hinv.2 hsome
    have hIi := readAbs_invariants r.toReader oracle rootAbs fs st rfl hra
    obtain ⟨m', hm', hk⟩ := hIi.2 (by rw [← hinv.1]; exact hne)
    refine ⟨⟨m', by rw [hset, hm'], hk⟩, ?_⟩
    intro hc
    unfold LocalPackageReadWriter.Write at hc
    split at hc
    · simp at hc
    · dsimp only at hc
      split at hc
      all_goals
        dsimp only at hc
        obtain rfl : _ = c := Option.some.inj hc
        show PathAnnotationKey ∈ (r'.SetAnnotations.getD []).keys
        rw [hset, hm']
        exact AnnMap.mem_keys_of_get_isSome m' PathAnnotationKey hk

/-- A read-writer sharing a non-nil `SetAnnotations` map. -/
def rC10 : LocalPackageReadWriter :=
  { PackagePath := "pkg", SetAnnotations := some [("foo", "bar")] }

/-- The same read-writer after reading `fsC9`: the shared map gained the
path-annotation key. -/
def rC10out : LocalPackageReadWriter :=
  { PackagePath := "pkg",
    SetAnnotations := some [("foo", "bar"), (PathAnnotationKey, "a.yaml")],
    files := ["a.yaml"] }

/-- The documents `rC10` reads from `fsC9`. -/
def nodesC10 : List RNode :=
  [⟨[(IndexAnnotationKey, "0"), ("foo", "bar"), (PathAnnotationKey, "a.yaml")]⟩]

/-- The writer call a subsequent empty `Write` on `rC10out` makes. -/
def callC10 : WriterCall :=
  { PackagePath := "pkg", ClearAnnotations := ["foo", PathAnnotationKey],
    KeepReaderAnnotations := false, nodes := [] }

/-- C10 witness: after `rC10` reads `fsC9`, its map holds the
path-annotation key and the next `Write` asks the writer to clear it. -/
theorem c10_witness :
    (∃ m', rC10out.SetAnnotations = some m'
        ∧ (AnnMap.get m' PathAnnotationKey).isSome = true)
    ∧ ((rC10out.Write (fun _ => none) (fun _ => none) []).writerCalled = some callC10 →
        PathAnnotationKey ∈ callC10.ClearAnnotations) :=
  c10_shared_map_gains_path_key_and_write_clears_it rC10 oracleTrivial ["pkg"] fsC9
    [("foo", "bar")] nodesC10 rC10out (fun _ => none) (fun _ => none) [] callC10
    rfl rfl rfl (by decide)

end Kio
